import Mathlib

/-!
Shallow embedding of the viper snake game (src/main.rs) and verification of
its specification. Positions use `Int` coordinates with `%` (Euclidean
remainder, matching Rust's `rem_euclid` on `i8` on the 32×32 grid, where no
machine overflow can occur for in-range values); the snake body
(`LinkedList<Segment>`) is a `List` in front-to-back order, with `push_front`
as cons and `pop_back` as `dropLast`; the external RNG collaborator
(`oorandom::Rand32`) is modelled as an abstract stream of raw draws, with
`rand_range(0..n)` reducing a draw modulo `n` so that its result always lies
in `[0, n)`, the contract the source relies on.
-/

namespace Viper

/-- `GRID_SIZE.0` from the source: the grid is 32 cells wide. -/
def GRID_W : Int := 32

/-- `GRID_SIZE.1` from the source: the grid is 32 cells tall. -/
def GRID_H : Int := 32

/-- `Position`: a grid coordinate pair (`i8` in the source, `Int` here). -/
@[ext]
structure Position where
  x : Int
  y : Int
  deriving DecidableEq, Repr

/-- The four cardinal directions. -/
inductive Direction where
  | Up
  | Down
  | Left
  | Right
  deriving DecidableEq, Repr

/-- `Position::next`: one step in direction `dir`, each coordinate reduced by
Euclidean remainder modulo the grid dimension (`rem_euclid` in the source). -/
def Position.next (pos : Position) (dir : Direction) : Position :=
  match dir with
  | Direction.Up => Position.mk pos.x ((pos.y - 1) % GRID_H)
  | Direction.Down => Position.mk pos.x ((pos.y + 1) % GRID_H)
  | Direction.Left => Position.mk ((pos.x - 1) % GRID_W) pos.y
  | Direction.Right => Position.mk ((pos.x + 1) % GRID_W) pos.y

/-- Keyboard codes relevant to the game: the four arrow keys, plus a stand-in
for every other key (`_ => None` arm of `Direction::from_keycode`). -/
inductive KeyCode where
  | Up
  | Down
  | Left
  | Right
  | Other
  deriving DecidableEq, Repr

/-- `Direction::from_keycode`. -/
def Direction.from_keycode (key : KeyCode) : Option Direction :=
  match key with
  | KeyCode.Up => some Direction.Up
  | KeyCode.Down => some Direction.Down
  | KeyCode.Left => some Direction.Left
  | KeyCode.Right => some Direction.Right
  | KeyCode.Other => none

/-- `Direction::inverse`. -/
def Direction.inverse (d : Direction) : Direction :=
  match d with
  | Direction.Up => Direction.Down
  | Direction.Down => Direction.Up
  | Direction.Left => Direction.Right
  | Direction.Right => Direction.Left

/-- `Segment`: one body cell, holding a position. -/
structure Segment where
  pos : Position
  deriving DecidableEq, Repr

/-- `Food`: a single position. -/
structure Food where
  pos : Position
  deriving DecidableEq, Repr

/-- `Ate`: the tick outcome recorded in `snake.ate`. -/
inductive Ate where
  | Itself
  | Food
  deriving DecidableEq, Repr

/-- `Snake`: head segment, committed direction, body (front-to-back), last
tick outcome, previously executed direction, and the buffered turn. -/
structure Snake where
  head : Segment
  dir : Direction
  body : List Segment
  ate : Option Ate
  prev_dir : Direction
  next_dir : Option Direction
  deriving DecidableEq, Repr

/-- `Snake::new`: head at `pos`, one body segment one cell to the left,
facing Right, no buffered turn, no outcome. -/
def Snake.new (pos : Position) : Snake :=
  { head := Segment.mk pos
    dir := Direction.Right
    body := [Segment.mk (Position.mk (pos.x - 1) pos.y)]
    ate := none
    prev_dir := Direction.Right
    next_dir := none }

/-- `Snake::eats`: the head coincides with the food. -/
def Snake.eats (s : Snake) (food : Food) : Bool :=
  s.head.pos == food.pos

/-- `Snake::eats_self`: the head coincides with some body segment. -/
def Snake.eats_self (s : Snake) : Bool :=
  s.body.any (fun seg => s.head.pos == seg.pos)

/-- The turn-commit prologue of `Snake::update`: if `prev_dir == dir` and a
turn is buffered, commit it and clear the buffer. -/
def Snake.commitTurn (s : Snake) : Snake :=
  match s.next_dir with
  | some d => if s.prev_dir = s.dir then { s with dir := d, next_dir := none } else s
  | none => s

/-- `Snake::update`: commit a buffered turn if eligible, advance the head
(pushing the old head onto the front of the body), record the tick outcome
with self-collision checked before food, pop the tail unless something was
eaten, and record the executed direction in `prev_dir`. -/
def Snake.update (s : Snake) (food : Food) : Snake :=
  let s1 := s.commitTurn
  let new_head := Segment.mk (Position.next s1.head.pos s1.dir)
  let s2 := { s1 with body := s1.head :: s1.body, head := new_head }
  let a : Option Ate :=
    if s2.eats_self then some Ate.Itself
    else if s2.eats food then some Ate.Food
    else none
  let s3 := { s2 with ate := a }
  let s4 := if a.isNone then { s3 with body := s3.body.dropLast } else s3
  { s4 with prev_dir := s4.dir }

/-- The external RNG collaborator (`oorandom::Rand32`), modelled as a stream
of raw draws consumed front to back; an exhausted stream yields 0. -/
structure Rand32 where
  stream : List Nat
  deriving DecidableEq, Repr

/-- `Rand32::rand_range(0..n)`: the next raw draw reduced modulo `n`, so the
result is always in `[0, n)` for `n > 0`, the contract the source relies on. -/
def Rand32.rand_range (r : Rand32) (n : Nat) : Nat × Rand32 :=
  match r.stream with
  | [] => (0, r)
  | v :: rest => (v % n, Rand32.mk rest)

/-- `Position::random`: each coordinate uniformly drawn from `[0, max)`. -/
def Position.random (rng : Rand32) (max_x max_y : Int) : Position × Rand32 :=
  let rx := rng.rand_range max_x.toNat
  let ry := rx.2.rand_range max_y.toNat
  (Position.mk (rx.1 : Int) (ry.1 : Int), ry.2)

/-- `State`: the game driver's state — snake, food, game-over latch, RNG. -/
structure State where
  snake : Snake
  food : Food
  game_over : Bool
  rng : Rand32
  deriving DecidableEq, Repr

/-- `State::new`: snake at `(GRID_SIZE.0 / 4, GRID_SIZE.1 / 2) = (8, 16)`,
food at a random in-bounds position, game not over. The OS entropy seeding
is abstracted into the initial `Rand32` stream. -/
def State.new (rng : Rand32) : State :=
  let fp := Position.random rng GRID_W GRID_H
  { snake := Snake.new (Position.mk (GRID_W / 4) (GRID_H / 2))
    food := Food.mk fp.1
    game_over := false
    rng := fp.2 }

/-- One iteration of the driver's fixed-rate update loop (`State::update`
body): when the game is not over, run the snake's tick and then either
relocate the food (outcome `Food`) or latch `game_over` (outcome `Itself`). -/
def State.updateStep (s : State) : State :=
  if s.game_over then s
  else
    let snake1 := s.snake.update s.food
    match snake1.ate with
    | some Ate.Food =>
        let np := Position.random s.rng GRID_W GRID_H
        { s with snake := snake1, food := Food.mk np.1, rng := np.2 }
    | some Ate.Itself => { s with snake := snake1, game_over := true }
    | none => { s with snake := snake1 }

/-- `State::key_down_event`: map the key to a direction; if a turn is already
committed but not yet executed (`dir != prev_dir`) and the request does not
reverse `dir`, buffer it; else if the request does not reverse `prev_dir`,
commit it immediately; else ignore it. -/
def State.key_down_event (s : State) (keycode : KeyCode) : State :=
  match Direction.from_keycode keycode with
  | none => s
  | some dir =>
    if s.snake.dir ≠ s.snake.prev_dir ∧ dir.inverse ≠ s.snake.dir then
      { s with snake := { s.snake with next_dir := some dir } }
    else if dir.inverse ≠ s.snake.prev_dir then
      { s with snake := { s.snake with dir := dir } }
    else s

/-- A two-cell snake whose head sits one cell to the left of its own body
segment while moving Right: this tick's move collides with that segment. -/
def demoSnake : Snake :=
  ⟨⟨⟨5, 5⟩⟩, Direction.Right, [⟨⟨6, 5⟩⟩], none, Direction.Right, none⟩

/-- Food far away from every cell the demo states touch. -/
def farFood : Food := ⟨⟨0, 0⟩⟩

/-- Food on the very cell `demoSnake` collides into. -/
def hereFood : Food := ⟨⟨6, 5⟩⟩

/-- A concrete play that ends the game: from the initial state, press Up, Up,
Down (leaving `dir = Down` with a buffered `Up`), then run two driver ticks;
the second tick commits the buffered `Up`, reversing the snake into the cell
it has just vacated, so the game-over latch is set. -/
def deadState : State :=
  (((((State.new ⟨[0, 0]⟩).key_down_event KeyCode.Up).key_down_event
      KeyCode.Up).key_down_event KeyCode.Down).updateStep).updateStep

/-- The reachable driver states: an initial state for some RNG seed, closed
under driver update iterations and key-down events. -/
inductive Reachable : State → Prop where
  | init (rng : Rand32) : Reachable (State.new rng)
  | step {s : State} : Reachable s → Reachable s.updateStep
  | input {s : State} (k : KeyCode) : Reachable s → Reachable (s.key_down_event k)

/-- A position is in-bounds for the 32×32 grid. -/
def Position.inBounds (p : Position) : Prop :=
  0 ≤ p.x ∧ p.x < GRID_W ∧ 0 ≤ p.y ∧ p.y < GRID_H

instance (p : Position) : Decidable p.inBounds := by
  unfold Position.inBounds
  exact inferInstance

/-- Every position held in a driver state (head, body segments, food) is
in-bounds. -/
def State.inBounds (s : State) : Prop :=
  s.snake.head.pos.inBounds ∧ (∀ seg ∈ s.snake.body, seg.pos.inBounds) ∧
    s.food.pos.inBounds

instance (s : State) : Decidable s.inBounds := by
  unfold State.inBounds
  exact inferInstance

/-! Helper lemmas about the embedded operations, shared by the claim
theorems below. -/

theorem commitTurn_head (s : Snake) : s.commitTurn.head = s.head := by
  unfold Snake.commitTurn
  cases s.next_dir with
  | none => rfl
  | some d => by_cases h : s.prev_dir = s.dir <;> simp [h]

theorem commitTurn_body (s : Snake) : s.commitTurn.body = s.body := by
  unfold Snake.commitTurn
  cases s.next_dir with
  | none => rfl
  | some d => by_cases h : s.prev_dir = s.dir <;> simp [h]

theorem commitTurn_ate (s : Snake) : s.commitTurn.ate = s.ate := by
  unfold Snake.commitTurn
  cases s.next_dir with
  | none => rfl
  | some d => by_cases h : s.prev_dir = s.dir <;> simp [h]

/-- Closed form of one snake tick: the head advances one cell in the
committed direction, the old head is consed onto the body, the outcome is
self-collision first and food second, and the tail is dropped exactly when
the outcome is `none`. -/
theorem update_eq (s : Snake) (f : Food) :
    s.update f =
      (fun a : Option Ate =>
        { head := Segment.mk (Position.next s.head.pos s.commitTurn.dir)
          dir := s.commitTurn.dir
          body := if a.isNone then (s.head :: s.body).dropLast else s.head :: s.body
          ate := a
          prev_dir := s.commitTurn.dir
          next_dir := s.commitTurn.next_dir })
      (if (s.head :: s.body).any
            (fun seg => Position.next s.head.pos s.commitTurn.dir == seg.pos)
       then some Ate.Itself
       else if Position.next s.head.pos s.commitTurn.dir == f.pos then some Ate.Food
       else none) := by
  simp only [Snake.update, Snake.eats_self, Snake.eats, commitTurn_head, commitTurn_body]
  split <;> split <;> rfl

theorem update_head (s : Snake) (f : Food) :
    (s.update f).head.pos = Position.next s.head.pos s.commitTurn.dir := by
  rw [update_eq]

theorem updateStep_of_game_over {s : State} (h : s.game_over = true) :
    s.updateStep = s := by
  unfold State.updateStep
  rw [if_pos h]

/-- A key-down event can only touch `dir` and `next_dir`; every other part
of the state is untouched. -/
theorem key_down_fields (s : State) (k : KeyCode) :
    (s.key_down_event k).snake.head = s.snake.head ∧
    (s.key_down_event k).snake.body = s.snake.body ∧
    (s.key_down_event k).snake.prev_dir = s.snake.prev_dir ∧
    (s.key_down_event k).snake.ate = s.snake.ate ∧
    (s.key_down_event k).food = s.food ∧
    (s.key_down_event k).game_over = s.game_over ∧
    (s.key_down_event k).rng = s.rng := by
  unfold State.key_down_event
  cases Direction.from_keycode k with
  | none => exact ⟨rfl, rfl, rfl, rfl, rfl, rfl, rfl⟩
  | some d =>
    by_cases h1 : s.snake.dir ≠ s.snake.prev_dir ∧ d.inverse ≠ s.snake.dir
    · simp [h1]
    · by_cases h2 : d.inverse ≠ s.snake.prev_dir <;> simp [h1, h2]

theorem update_body_length (s : Snake) (f : Food) :
    (s.update f).body.length = s.body.length ∨
      (s.update f).body.length = s.body.length + 1 := by
  rw [update_eq]
  dsimp only
  split <;> (try split) <;> simp [List.length_dropLast]

theorem update_body_ne_nil {s : Snake} (h : s.body ≠ []) (f : Food) :
    (s.update f).body ≠ [] := by
  have hpos : 0 < s.body.length := List.length_pos.mpr h
  have hlen := update_body_length s f
  intro hc
  rw [hc] at hlen
  simp only [List.length_nil] at hlen
  omega

/-- How one tick changes the body: outcome `none` pops the tail of the
pushed body, any other outcome keeps it, growing the body by one. -/
theorem update_body_cases (s : Snake) (f : Food) :
    ((s.update f).ate = none →
      (s.update f).body = (s.head :: s.body).dropLast ∧
      (s.update f).body.length = s.body.length) ∧
    (∀ a : Ate, (s.update f).ate = some a →
      (s.update f).body = s.head :: s.body ∧
      (s.update f).body.length = s.body.length + 1) := by
  rw [update_eq]
  dsimp only
  split
  · exact ⟨fun h => absurd h (by simp), fun a ha => ⟨by simp, by simp⟩⟩
  · split
    · exact ⟨fun h => absurd h (by simp), fun a ha => ⟨by simp, by simp⟩⟩
    · refine ⟨fun h => ⟨by simp, ?_⟩, fun a ha => absurd ha (by simp)⟩
      simp [List.length_dropLast]

theorem next_in_bounds (p : Position) (d : Direction) (hp : p.inBounds) :
    (Position.next p d).inBounds := by
  obtain ⟨hx0, hxw, hy0, hyh⟩ := hp
  simp only [GRID_W, GRID_H] at hxw hyh
  cases d <;>
    simp only [Position.next, Position.inBounds, GRID_W, GRID_H] <;>
    refine ⟨?_, ?_, ?_, ?_⟩ <;> omega

theorem random_in_bounds (r : Rand32) :
    (Position.random r GRID_W GRID_H).1.inBounds := by
  obtain ⟨st⟩ := r
  cases st with
  | nil => decide
  | cons v t =>
    cases t with
    | nil =>
      have hv : (32 : Int).toNat = 32 := rfl
      simp only [Position.random, Rand32.rand_range, Position.inBounds, GRID_W, GRID_H, hv]
      refine ⟨?_, ?_, ?_, ?_⟩ <;> omega
    | cons w u =>
      have hv : (32 : Int).toNat = 32 := rfl
      simp only [Position.random, Rand32.rand_range, Position.inBounds, GRID_W, GRID_H, hv]
      refine ⟨?_, ?_, ?_, ?_⟩ <;> omega

/-- When the game is not over, a driver step runs the snake tick, and the
food either stays or is relocated to a fresh random position. -/
theorem updateStep_fields {s : State} (h : s.game_over = false) :
    s.updateStep.snake = s.snake.update s.food ∧
    (s.updateStep.food = s.food ∨
      s.updateStep.food = Food.mk (Position.random s.rng GRID_W GRID_H).1) := by
  unfold State.updateStep
  rw [if_neg (by simp [h])]
  dsimp only
  cases hap : (s.snake.update s.food).ate with
  | none => exact ⟨rfl, Or.inl rfl⟩
  | some a =>
    cases a with
    | Itself => exact ⟨rfl, Or.inl rfl⟩
    | Food => exact ⟨rfl, Or.inr rfl⟩

/-- One snake tick keeps every held position in-bounds. -/
theorem update_preserves_in_bounds {sn : Snake} (hh : sn.head.pos.inBounds)
    (hb : ∀ seg ∈ sn.body, seg.pos.inBounds) (f : Food) :
    (sn.update f).head.pos.inBounds ∧
      ∀ seg ∈ (sn.update f).body, seg.pos.inBounds := by
  constructor
  · rw [update_head]
    exact next_in_bounds _ _ hh
  · intro seg hseg
    have hmem : seg ∈ sn.head :: sn.body := by
      cases hap : (sn.update f).ate with
      | none =>
        have hb2 := ((update_body_cases sn f).1 hap).1
        rw [hb2] at hseg
        exact List.mem_of_mem_dropLast hseg
      | some a =>
        have hb2 := ((update_body_cases sn f).2 a hap).1
        rw [hb2] at hseg
        exact hseg
    rcases List.mem_cons.mp hmem with h | h
    · rw [h]
      exact hh
    · exact hb seg h

theorem deadState_reachable : Reachable deadState := by
  unfold deadState
  exact Reachable.step (Reachable.step (Reachable.input KeyCode.Down
    (Reachable.input KeyCode.Up (Reachable.input KeyCode.Up
      (Reachable.init ⟨[0, 0]⟩)))))

/-! The claim theorems. -/

/-- C8: for every in-bounds position `p` and direction `d`, one step in `d`
followed by one step in `d.inverse` returns to `p` under the toroidal
Euclidean-remainder wraparound. -/
theorem next_inverse_cancel (p : Position) (hp : p.inBounds) (d : Direction) :
    Position.next (Position.next p d) d.inverse = p := by
  obtain ⟨x, y⟩ := p
  simp only [Position.inBounds, GRID_W, GRID_H] at hp
  obtain ⟨hx0, hxw, hy0, hyh⟩ := hp
  cases d <;>
    (apply Position.ext <;>
      (simp only [Position.next, Direction.inverse, GRID_W, GRID_H]; try omega))

theorem next_inverse_cancel_witness :
    Position.next (Position.next (Position.mk 0 0) Direction.Up)
      Direction.Up.inverse = Position.mk 0 0 :=
  next_inverse_cancel (Position.mk 0 0) (by decide) Direction.Up

/-- C5: at the start of `Snake::update`, when `prev_dir = dir` and a turn is
buffered, the buffered direction is committed and the buffer cleared; in
every other case this step leaves `dir` and the buffer untouched. The snake
then advances in the direction this step committed, which also becomes the
new `prev_dir`, and the (possibly cleared) buffer survives the tick. -/
theorem turn_commit (s : Snake) :
    (∀ d : Direction, s.prev_dir = s.dir → s.next_dir = some d →
      s.commitTurn = { s with dir := d, next_dir := none }) ∧
    (s.prev_dir ≠ s.dir ∨ s.next_dir = none → s.commitTurn = s) ∧
    (∀ f : Food, (s.update f).head.pos = Position.next s.head.pos s.commitTurn.dir ∧
      (s.update f).prev_dir = s.commitTurn.dir ∧
      (s.update f).next_dir = s.commitTurn.next_dir) := by
  refine ⟨?_, ?_, ?_⟩
  · intro d h1 h2
    unfold Snake.commitTurn
    rw [h2]
    dsimp only
    rw [if_pos h1]
  · intro h
    unfold Snake.commitTurn
    cases hn : s.next_dir with
    | none => rfl
    | some d =>
      rcases h with h | h
      · dsimp only
        rw [if_neg h]
      · rw [hn] at h
        exact absurd h (by simp)
  · intro f
    rw [update_eq]
    exact ⟨rfl, rfl, rfl⟩

theorem turn_commit_witness :
    Snake.commitTurn
        ⟨⟨⟨8, 16⟩⟩, Direction.Right, [⟨⟨7, 16⟩⟩], none, Direction.Right,
          some Direction.Up⟩ =
      ⟨⟨⟨8, 16⟩⟩, Direction.Up, [⟨⟨7, 16⟩⟩], none, Direction.Right, none⟩ :=
  (turn_commit ⟨⟨⟨8, 16⟩⟩, Direction.Right, [⟨⟨7, 16⟩⟩], none, Direction.Right,
    some Direction.Up⟩).1 Direction.Up rfl rfl

/-- C7: from the initial snake (head `(8,16)`, body `[(7,16)]`, facing Right
with no buffered turn), one tick with the food away from `(9,16)` moves the
head to `(9,16)`, leaves the body as exactly `[(8,16)]`, and records no
outcome. -/
theorem initial_tick (f : Food) (hf : f.pos ≠ Position.mk 9 16) :
    ((Snake.new (Position.mk 8 16)).update f).head.pos = Position.mk 9 16 ∧
    ((Snake.new (Position.mk 8 16)).update f).body = [Segment.mk (Position.mk 8 16)] ∧
    ((Snake.new (Position.mk 8 16)).update f).ate = none := by
  rw [update_eq]
  have hnh : Position.next (Snake.new (Position.mk 8 16)).head.pos
      (Snake.new (Position.mk 8 16)).commitTurn.dir = Position.mk 9 16 := by decide
  have hc1 : (((Snake.new (Position.mk 8 16)).head :: (Snake.new (Position.mk 8 16)).body).any
      (fun seg => Position.next (Snake.new (Position.mk 8 16)).head.pos
        (Snake.new (Position.mk 8 16)).commitTurn.dir == seg.pos)) = false := by decide
  have hc2 : (Position.next (Snake.new (Position.mk 8 16)).head.pos
      (Snake.new (Position.mk 8 16)).commitTurn.dir == f.pos) = false := by
    rw [hnh]
    exact beq_eq_false_iff_ne.mpr (Ne.symm hf)
  rw [hc1, hc2]
  dsimp only
  exact ⟨hnh, by decide, rfl⟩

theorem initial_tick_witness :
    ((Snake.new (Position.mk 8 16)).update (Food.mk (Position.mk 0 0))).head.pos =
        Position.mk 9 16 ∧
    ((Snake.new (Position.mk 8 16)).update (Food.mk (Position.mk 0 0))).body =
        [Segment.mk (Position.mk 8 16)] ∧
    ((Snake.new (Position.mk 8 16)).update (Food.mk (Position.mk 0 0))).ate = none :=
  initial_tick (Food.mk (Position.mk 0 0)) (by decide)

/-- C1: a directional input is arbitrated by the source's decision table in
order, first match wins — buffer the turn when a turn is already committed
but unexecuted and the request does not reverse `dir`; else commit it
immediately when it does not reverse `prev_dir`; else ignore it. In
particular, with `prev_dir = dir = Right` a `Left` input is ignored and an
`Up` input commits immediately, and with `prev_dir = Right, dir = Up` a
`Right` input is buffered. -/
theorem input_arbitration :
    (∀ (s : State) (k : KeyCode) (d : Direction), Direction.from_keycode k = some d →
      (s.snake.dir ≠ s.snake.prev_dir ∧ d.inverse ≠ s.snake.dir →
        s.key_down_event k = { s with snake := { s.snake with next_dir := some d } }) ∧
      (¬(s.snake.dir ≠ s.snake.prev_dir ∧ d.inverse ≠ s.snake.dir) →
        d.inverse ≠ s.snake.prev_dir →
        s.key_down_event k = { s with snake := { s.snake with dir := d } }) ∧
      (¬(s.snake.dir ≠ s.snake.prev_dir ∧ d.inverse ≠ s.snake.dir) →
        d.inverse = s.snake.prev_dir → s.key_down_event k = s)) ∧
    (∀ s : State, s.snake.prev_dir = Direction.Right → s.snake.dir = Direction.Right →
      s.key_down_event KeyCode.Left = s) ∧
    (∀ s : State, s.snake.prev_dir = Direction.Right → s.snake.dir = Direction.Right →
      s.key_down_event KeyCode.Up =
        { s with snake := { s.snake with dir := Direction.Up } }) ∧
    (∀ s : State, s.snake.prev_dir = Direction.Right → s.snake.dir = Direction.Up →
      s.key_down_event KeyCode.Right =
        { s with snake := { s.snake with next_dir := some Direction.Right } }) := by
  have htable : ∀ (s : State) (k : KeyCode) (d : Direction),
      Direction.from_keycode k = some d →
      (s.snake.dir ≠ s.snake.prev_dir ∧ d.inverse ≠ s.snake.dir →
        s.key_down_event k = { s with snake := { s.snake with next_dir := some d } }) ∧
      (¬(s.snake.dir ≠ s.snake.prev_dir ∧ d.inverse ≠ s.snake.dir) →
        d.inverse ≠ s.snake.prev_dir →
        s.key_down_event k = { s with snake := { s.snake with dir := d } }) ∧
      (¬(s.snake.dir ≠ s.snake.prev_dir ∧ d.inverse ≠ s.snake.dir) →
        d.inverse = s.snake.prev_dir → s.key_down_event k = s) := by
    intro s k d hk
    refine ⟨?_, ?_, ?_⟩
    · intro h1
      unfold State.key_down_event
      rw [hk]
      dsimp only
      rw [if_pos h1]
    · intro h1 h2
      unfold State.key_down_event
      rw [hk]
      dsimp only
      rw [if_neg h1, if_pos h2]
    · intro h1 h2
      unfold State.key_down_event
      rw [hk]
      dsimp only
      rw [if_neg h1, if_neg (fun hne => hne h2)]
  refine ⟨htable, ?_, ?_, ?_⟩
  · intro s h1 h2
    have h := (htable s KeyCode.Left Direction.Left rfl).2.2
    apply h
    · rw [h1, h2]
      simp [Direction.inverse]
    · rw [h1]
      rfl
  · intro s h1 h2
    have h := (htable s KeyCode.Up Direction.Up rfl).2.1
    apply h
    · rw [h1, h2]
      simp
    · rw [h1]
      simp [Direction.inverse]
  · intro s h1 h2
    have h := (htable s KeyCode.Right Direction.Right rfl).1
    apply h
    refine ⟨by rw [h1, h2]; simp, by rw [h2]; simp [Direction.inverse]⟩

theorem input_arbitration_witness :
    State.key_down_event
        ⟨⟨⟨⟨9, 16⟩⟩, Direction.Up, [⟨⟨8, 16⟩⟩], none, Direction.Right, none⟩,
          ⟨⟨0, 0⟩⟩, false, ⟨[]⟩⟩ KeyCode.Right =
      ⟨⟨⟨⟨9, 16⟩⟩, Direction.Up, [⟨⟨8, 16⟩⟩], none, Direction.Right,
          some Direction.Right⟩, ⟨⟨0, 0⟩⟩, false, ⟨[]⟩⟩ :=
  input_arbitration.2.2.2
    ⟨⟨⟨⟨9, 16⟩⟩, Direction.Up, [⟨⟨8, 16⟩⟩], none, Direction.Right, none⟩,
      ⟨⟨0, 0⟩⟩, false, ⟨[]⟩⟩ rfl rfl

/-- C2: across one `Snake::update`, an outcome of `none` removes the tail of
the pushed body (net body length unchanged), while an outcome of `Food` or
`Itself` keeps the tail and the body length grows by exactly one. -/
theorem update_growth (s : Snake) (f : Food) :
    ((s.update f).ate = none →
      (s.update f).body = (s.head :: s.body).dropLast ∧
      (s.update f).body.length = s.body.length) ∧
    (∀ a : Ate, (s.update f).ate = some a →
      (s.update f).body = s.head :: s.body ∧
      (s.update f).body.length = s.body.length + 1) :=
  update_body_cases s f

theorem update_growth_witness :
    ((Snake.new (Position.mk 8 16)).update farFood).body =
        ((Snake.new (Position.mk 8 16)).head ::
          (Snake.new (Position.mk 8 16)).body).dropLast ∧
    ((Snake.new (Position.mk 8 16)).update farFood).body.length =
        (Snake.new (Position.mk 8 16)).body.length :=
  (update_growth (Snake.new (Position.mk 8 16)) farFood).1 (by decide)

/-- C3 is false as stated: a snake that runs into itself also grows by one,
so growth by one does not imply that food was eaten — witnessed by a
two-cell snake reversing into its own body away from the food. -/
theorem growth_iff_food_cex :
    ¬((demoSnake.update farFood).body.length = demoSnake.body.length + 1 ↔
      (demoSnake.update farFood).ate = some Ate.Food) := by decide

/-- C3 (amended): across one `Snake::update`, the body length increases by
exactly one (the tail is not popped) if and only if the tick outcome is
`Food` or `Itself` — that is, iff the outcome is not `none`. -/
theorem growth_iff_ate (s : Snake) (f : Food) :
    (s.update f).body.length = s.body.length + 1 ↔ (s.update f).ate ≠ none := by
  have hg := update_body_cases s f
  constructor
  · intro hlen
    cases ha : (s.update f).ate with
    | none =>
      have := (hg.1 ha).2
      omega
    | some a => simp
  · intro hne
    cases ha : (s.update f).ate with
    | none => exact absurd ha hne
    | some a => exact (hg.2 a ha).2

theorem growth_iff_ate_witness :
    (demoSnake.update farFood).body.length = demoSnake.body.length + 1 :=
  (growth_iff_ate demoSnake farFood).mpr (by decide)

/-- C4: the tick outcome checks self-collision first — the new head against
every segment of the body after the old head has been pushed onto it (so the
just-vacated head cell is included) — then food, else records nothing; when
the new head coincides with both a body segment and the food, the outcome is
`Itself`. -/
theorem collision_priority (s : Snake) (f : Food) :
    ((s.update f).ate =
      if (s.head :: s.body).any
          (fun seg => Position.next s.head.pos s.commitTurn.dir == seg.pos)
      then some Ate.Itself
      else if Position.next s.head.pos s.commitTurn.dir == f.pos then some Ate.Food
      else none) ∧
    ((∃ seg ∈ s.head :: s.body,
        seg.pos = Position.next s.head.pos s.commitTurn.dir) →
      (s.update f).ate = some Ate.Itself) ∧
    ((∀ seg ∈ s.head :: s.body,
        seg.pos ≠ Position.next s.head.pos s.commitTurn.dir) →
      Position.next s.head.pos s.commitTurn.dir = f.pos →
      (s.update f).ate = some Ate.Food) ∧
    ((∀ seg ∈ s.head :: s.body,
        seg.pos ≠ Position.next s.head.pos s.commitTurn.dir) →
      Position.next s.head.pos s.commitTurn.dir ≠ f.pos →
      (s.update f).ate = none) ∧
    ((∃ seg ∈ s.head :: s.body,
        seg.pos = Position.next s.head.pos s.commitTurn.dir) →
      Position.next s.head.pos s.commitTurn.dir = f.pos →
      (s.update f).ate = some Ate.Itself) := by
  have hA : (s.update f).ate =
      if (s.head :: s.body).any
          (fun seg => Position.next s.head.pos s.commitTurn.dir == seg.pos)
      then some Ate.Itself
      else if Position.next s.head.pos s.commitTurn.dir == f.pos then some Ate.Food
      else none := by
    rw [update_eq]
  have hself : ∀ seg ∈ s.head :: s.body,
      seg.pos = Position.next s.head.pos s.commitTurn.dir →
      (s.update f).ate = some Ate.Itself := by
    intro seg hmem hseg
    have hany : ((s.head :: s.body).any
        (fun sg => Position.next s.head.pos s.commitTurn.dir == sg.pos)) = true := by
      apply List.any_eq_true.mpr
      exact ⟨seg, hmem, by simp [hseg]⟩
    rw [hA, if_pos hany]
  have hnone : ∀ (h : ∀ seg ∈ s.head :: s.body,
      seg.pos ≠ Position.next s.head.pos s.commitTurn.dir),
      ((s.head :: s.body).any
        (fun sg => Position.next s.head.pos s.commitTurn.dir == sg.pos)) = false := by
    intro h
    rw [Bool.eq_false_iff]
    intro hany
    obtain ⟨seg, hmem, hseg⟩ := List.any_eq_true.mp hany
    exact h seg hmem (beq_iff_eq.mp hseg).symm
  refine ⟨hA, ?_, ?_, ?_, ?_⟩
  · intro hex
    obtain ⟨seg, hmem, hseg⟩ := hex
    exact hself seg hmem hseg
  · intro hall hfe
    rw [hA, if_neg (by simp [hnone hall]), if_pos (by simp [hfe])]
  · intro hall hfe
    rw [hA, if_neg (by simp [hnone hall]), if_neg (by simp [hfe])]
  · intro hex hfe
    obtain ⟨seg, hmem, hseg⟩ := hex
    exact hself seg hmem hseg

theorem collision_priority_witness :
    (demoSnake.update hereFood).ate = some Ate.Itself :=
  (collision_priority demoSnake hereFood).2.2.2.2 (by decide) (by decide)

/-- C6: `game_over` is a one-way latch: in any reachable state with the
latch set, any number of driver update steps change nothing at all, and a
key-down event is still processed but leaves the head, body, `prev_dir`,
outcome, food and the latch unchanged — and driver steps after such an input
still change nothing, so input has no effect on the game. -/
theorem game_over_latch (s : State) (hr : Reachable s) (hg : s.game_over = true) :
    (∀ n : Nat, Nat.iterate State.updateStep n s = s) ∧
    (∀ k : KeyCode,
      (s.key_down_event k).snake.head = s.snake.head ∧
      (s.key_down_event k).snake.body = s.snake.body ∧
      (s.key_down_event k).snake.prev_dir = s.snake.prev_dir ∧
      (s.key_down_event k).snake.ate = s.snake.ate ∧
      (s.key_down_event k).food = s.food ∧
      (s.key_down_event k).game_over = true ∧
      ∀ n : Nat, Nat.iterate State.updateStep n (s.key_down_event k) =
        s.key_down_event k) := by
  have hfix : ∀ t : State, t.game_over = true →
      ∀ n : Nat, Nat.iterate State.updateStep n t = t := by
    intro t ht n
    exact Function.iterate_fixed (updateStep_of_game_over ht) n
  refine ⟨hfix s hg, ?_⟩
  intro k
  obtain ⟨h1, h2, h3, h4, h5, h6, h7⟩ := key_down_fields s k
  have hg2 : (s.key_down_event k).game_over = true := by rw [h6, hg]
  exact ⟨h1, h2, h3, h4, h5, hg2, hfix _ hg2⟩

theorem game_over_latch_witness :
    Nat.iterate State.updateStep 5 deadState = deadState ∧
    (deadState.key_down_event KeyCode.Left).game_over = true :=
  ⟨(game_over_latch deadState deadState_reachable (by decide)).1 5,
   ((game_over_latch deadState deadState_reachable (by decide)).2
     KeyCode.Left).2.2.2.2.2.1⟩

/-- C9: `Position::next` preserves in-bounds, `Position::random` over the
grid dimensions always lands in-bounds, and every position held in a
reachable driver state (head, body segments, food) is in-bounds. -/
theorem reachable_in_bounds :
    (∀ (p : Position) (d : Direction), p.inBounds → (Position.next p d).inBounds) ∧
    (∀ r : Rand32, (Position.random r GRID_W GRID_H).1.inBounds) ∧
    (∀ s : State, Reachable s → s.inBounds) := by
  refine ⟨fun p d hp => next_in_bounds p d hp, random_in_bounds, ?_⟩
  intro s hr
  induction hr with
  | init rng =>
    unfold State.inBounds
    refine ⟨?_, ?_, ?_⟩
    · show (Snake.new (Position.mk (GRID_W / 4) (GRID_H / 2))).head.pos.inBounds
      decide
    · show ∀ seg ∈ (Snake.new (Position.mk (GRID_W / 4) (GRID_H / 2))).body,
        seg.pos.inBounds
      decide
    · exact random_in_bounds rng
  | @step t hprev ih =>
    unfold State.inBounds at ih ⊢
    obtain ⟨ihh, ihb, ihf⟩ := ih
    by_cases hg : t.game_over = true
    · rw [updateStep_of_game_over hg]
      exact ⟨ihh, ihb, ihf⟩
    · have hgf : t.game_over = false := by
        revert hg
        cases t.game_over <;> simp
      obtain ⟨hsn, hfd⟩ := updateStep_fields hgf
      have hsnake := update_preserves_in_bounds ihh ihb t.food
      refine ⟨?_, ?_, ?_⟩
      · rw [hsn]
        exact hsnake.1
      · rw [hsn]
        exact hsnake.2
      · rcases hfd with h | h
        · rw [h]
          exact ihf
        · rw [h]
          exact random_in_bounds t.rng
  | @input t k hprev ih =>
    unfold State.inBounds at ih ⊢
    obtain ⟨ihh, ihb, ihf⟩ := ih
    obtain ⟨h1, h2, _, _, h5, _, _⟩ := key_down_fields t k
    refine ⟨?_, ?_, ?_⟩
    · rw [h1]
      exact ihh
    · rw [h2]
      exact ihb
    · rw [h5]
      exact ihf

theorem reachable_in_bounds_witness :
    State.inBounds (State.new ⟨[]⟩) ∧
      (Position.next (Position.mk 0 0) Direction.Up).inBounds :=
  ⟨reachable_in_bounds.2.2 (State.new ⟨[]⟩) (Reachable.init ⟨[]⟩),
   reachable_in_bounds.1 (Position.mk 0 0) Direction.Up (by decide)⟩

/-- C10: the snake's body is never empty in a reachable state — it starts
with one segment and every tick pushes the old head before popping at most
one tail segment — and one further tick from a reachable state still leaves
it nonempty. -/
theorem body_nonempty (s : State) (hr : Reachable s) :
    s.snake.body ≠ [] ∧ ∀ f : Food, (s.snake.update f).body ≠ [] := by
  have hmain : s.snake.body ≠ [] := by
    induction hr with
    | init rng =>
      show (Snake.new (Position.mk (GRID_W / 4) (GRID_H / 2))).body ≠ []
      decide
    | @step t hprev ih =>
      by_cases hg : t.game_over = true
      · rwa [updateStep_of_game_over hg]
      · have hgf : t.game_over = false := by
          revert hg
          cases t.game_over <;> simp
        obtain ⟨hsn, _⟩ := updateStep_fields hgf
        rw [hsn]
        exact update_body_ne_nil ih t.food
    | @input t k hprev ih =>
      obtain ⟨_, h2, _⟩ := key_down_fields t k
      rwa [h2]
  exact ⟨hmain, fun f => update_body_ne_nil hmain f⟩

theorem body_nonempty_witness :
    (State.new ⟨[]⟩).snake.body ≠ [] :=
  (body_nonempty (State.new ⟨[]⟩) (Reachable.init ⟨[]⟩)).1

end Viper
